import Mathlib

/-!
Verification of the SoulBalance AI proxy (src/main.py) against its
natural-language specification.

The embedding models Python strings as `List Char` (abbreviated `Str`).
Python regular-expression character classes are modelled over the character
ranges that actually occur in the program's data: `\d` and `\s` as their
ASCII meanings, `\w` as ASCII alphanumerics, the underscore, and the
Latin-1 accented letters used by Portuguese text.  JSON numbers are
modelled as integers (the response schema's only numeric field,
`duracaoMin`, is an integer field).
-/

namespace SoulBalance

/-- Python strings are modelled as lists of characters. -/
abbrev Str := List Char

/-- The character code of an opening curly brace (written numerically). -/
def lbrace : Char := Char.ofNat 123

/-- The character code of a closing curly brace (written numerically). -/
def rbrace : Char := Char.ofNat 125

/-- Whitespace recognised by Python `str.strip()`, restricted to ASCII:
space, tab, newline, carriage return, vertical tab, form feed. -/
def isPyWs (c : Char) : Bool :=
  c == ' ' || c == '\t' || c == '\n' || c == '\r' ||
  c == Char.ofNat 11 || c == Char.ofNat 12

/-- ASCII decimal digit, the model of the regex class `\d`. -/
def isDigitCh (c : Char) : Bool :=
  48 ≤ c.toNat && c.toNat ≤ 57

/-- Model of the regex class `\w`: ASCII alphanumerics, underscore, and the
Latin-1 accented letters (excluding the two Latin-1 arithmetic signs). -/
def isWordChar (c : Char) : Bool :=
  (48 ≤ c.toNat && c.toNat ≤ 57) ||
  (65 ≤ c.toNat && c.toNat ≤ 90) ||
  (97 ≤ c.toNat && c.toNat ≤ 122) ||
  c.toNat == 95 ||
  (192 ≤ c.toNat && c.toNat ≤ 255 && c.toNat != 215 && c.toNat != 247)

/-- The sentence-stopping punctuation excluded by the load-change regex:
period (46), exclamation mark (33), question mark (63). -/
def isStopPunct (c : Char) : Bool :=
  c.toNat == 46 || c.toNat == 33 || c.toNat == 63

/-- Case folding as used by `re.IGNORECASE` on the program's keywords:
ASCII upper-case letters fold to lower case, and the two accented capitals
occurring in the keyword lists (`Ç` 199 → `ç` 231, `Ã` 195 → `ã` 227) fold
to their lower-case forms; every other character is unchanged. -/
def lc (c : Char) : Char :=
  if 65 ≤ c.toNat && c.toNat ≤ 90 then Char.ofNat (c.toNat + 32)
  else if c.toNat == 199 then Char.ofNat 231
  else if c.toNat == 195 then Char.ofNat 227
  else c

/-- Python `str.strip()` from the left. -/
def trimL (l : Str) : Str := l.dropWhile isPyWs

/-- Python `str.strip()` from the right. -/
def trimR (l : Str) : Str := (l.reverse.dropWhile isPyWs).reverse

/-- Python `str.strip()`. -/
def pyStrip (l : Str) : Str := trimR (trimL l)

/-- The separator class of `re.split(r"[\r\n\*•]+", text)`:
carriage return, newline, asterisk, bullet. -/
def sepChar (c : Char) : Bool :=
  c == '\r' || c == '\n' || c == '*' || c == '•'

/-- Splitting a list at every character satisfying `p` (single-character
split; together with the empty-segment filter below this is equivalent to
Python's split on one-or-more separators). -/
def splitOnP (p : Char → Bool) : Str → List Str
  | [] => [[]]
  | c :: r =>
    if p c then [] :: splitOnP p r
    else
      match splitOnP p r with
      | [] => [[c]]
      | s :: ss => (c :: s) :: ss

/-- The non-empty stripped segments of the model reply, as computed by
lines 63-64 of `main.py`. -/
def linesOf (t : Str) : List Str :=
  ((splitOnP sepChar t).map pyStrip).filter (fun l => !l.isEmpty)

/-- The self-care verb keywords of the anchored, case-insensitive regex on
line 66 of `main.py`. -/
def suggestionKeywords : List Str :=
  [("faça").toList, ("pausa").toList, ("respiração").toList,
   ("alongamento").toList, ("hidrate").toList, ("caminhe").toList,
   ("medite").toList, ("planeje").toList, ("descanse").toList,
   ("evite").toList, ("reduza").toList, ("aumente").toList,
   ("organize").toList]

/-- Whether a segment begins (case-insensitively) with one of the
self-care verb keywords: the model of `suggestion_verbs.search(l)` for the
`^`-anchored pattern. -/
def isSuggestion (l : Str) : Bool :=
  suggestionKeywords.any (fun kw => (l.take kw.length).map lc == kw)

/-- Whether a segment contains the duration pattern `\d+\s?m(in)?`:
a digit, optionally one ASCII whitespace, then a literal `m`
(case-sensitive: the duration regex carries no flags). -/
def hasDur : Str → Bool
  | c :: c2 :: rest =>
    (isDigitCh c && (c2 == 'm' || (isPyWs c2 && rest.headD ' ' == 'm')))
      || hasDur (c2 :: rest)
  | _ => false

/-- Attempting the load-change regex alternative with folded stem `stem`
at the current position.  For the `\w+`-suffixed alternatives
(`needW = true`) at least one word character must follow the stem; the
match then extends over at most 80 further characters that are not
sentence-stopping punctuation (`[^\.!?]{0,80}`, greedy). -/
def tryStem (stem : Str) (needW : Bool) (l : Str) : Option Str :=
  if (l.take stem.length).map lc == stem then
    let p := l.take stem.length
    let r := l.drop stem.length
    if needW then
      let w := r.takeWhile isWordChar
      if w.isEmpty then none
      else some (p ++ w ++ ((r.drop w.length).takeWhile (fun c => !isStopPunct c)).take 80)
    else some (p ++ (r.takeWhile (fun c => !isStopPunct c)).take 80)
  else none

/-- One attempt of `(reduz\w+|diminu\w+|aument\w+|eleve)[^\.!?]{0,80}`
at the current position (the four alternatives begin with distinct
letters, so the attempt order cannot matter). -/
def loadHere (l : Str) : Option Str :=
  match tryStem (("reduz").toList) true l with
  | some m => some m
  | none =>
    match tryStem (("diminu").toList) true l with
    | some m => some m
    | none =>
      match tryStem (("aument").toList) true l with
      | some m => some m
      | none => tryStem (("eleve").toList) false l

/-- Leftmost search of the load-change regex over the whole reply text:
the model of `re.search` on line 70 of `main.py`. -/
def findLoad : Str → Option Str
  | [] => none
  | c :: r =>
    match loadHere (c :: r) with
    | some m => some m
    | none => findLoad r

/-- One item of the optional day plan (`PlanoDiaItem` in `main.py`). -/
structure PlanoDiaItem where
  titulo : Str
  duracaoMin : Option Int := none
  tipo : Option Str := none
  detalhes : Option Str := none
deriving DecidableEq

/-- The response schema (`AjusteResponse` in `main.py`). -/
structure AjusteResponse where
  diagnostico : Str
  ajusteCarga : Option Str := none
  recomendacoesAutocuidado : List Str := []
  planoDia : Option (List PlanoDiaItem) := none
  rawText : Option Str := none
  error : Option Str := none
deriving DecidableEq

/-- The fixed default recommendation of the heuristic fallback. -/
def pausaLeve : Str := ("Pausa leve 5m").toList

/-- The default diagnosis of the heuristic fallback. -/
def textoLivre : Str := ("Texto livre recebido.").toList

/-- The heuristic fallback normalizer (`parse_text_fallback` in
`main.py`).  The Python `try` body is total in this embedding, so the
`except` branch (which would return the same default shape with the error
recorded) is unreachable. -/
def parse_text_fallback (t : Str) : AjusteResponse :=
  let lines := linesOf t
  let diagnostico := match lines with
    | [] => textoLivre
    | l :: _ => l.take 140
  let recsRaw := (lines.drop 1).filter (fun l => isSuggestion l || hasDur l)
  let recs := if recsRaw.isEmpty then [pausaLeve] else recsRaw.take 5
  { diagnostico := diagnostico
    ajusteCarga := (findLoad t).map pyStrip
    recomendacoesAutocuidado := recs
    planoDia := none
    rawText := some t
    error := none }

/-- JSON values, as produced by `json.loads`.  Numbers are modelled as
integers; the parser does not model non-integer literals. -/
inductive Json where
  | null
  | bool (b : Bool)
  | num (n : Int)
  | str (s : Str)
  | arr (xs : List Json)
  | obj (kvs : List (Str × Json))

/-- JSON insignificant whitespace: space, tab, newline, carriage return. -/
def isJsonWs (c : Char) : Bool :=
  c == ' ' || c == '\t' || c == '\n' || c == '\r'

/-- Skipping insignificant whitespace. -/
def skipWs (l : Str) : Str := l.dropWhile isJsonWs

/-- The value of one hexadecimal digit. -/
def hexVal (c : Char) : Option Nat :=
  if 48 ≤ c.toNat && c.toNat ≤ 57 then some (c.toNat - 48)
  else if 97 ≤ c.toNat && c.toNat ≤ 102 then some (c.toNat - 87)
  else if 65 ≤ c.toNat && c.toNat ≤ 70 then some (c.toNat - 55)
  else none

/-- Parsing the body of a JSON string literal, after the opening quote.
Returns the decoded characters and the input remaining after the closing
quote.  Unescaped control characters are rejected (strict mode), and
`\uXXXX` escapes in the surrogate range are not modelled. -/
def parseStrBody : Nat → Str → Option (Str × Str)
  | 0, _ => none
  | _ + 1, [] => none
  | fuel + 1, c :: r =>
    if c == '"' then some ([], r)
    else if c == '\\' then
      match r with
      | [] => none
      | e :: r2 =>
        if e == '"' || e == '\\' || e == '/' then
          (parseStrBody fuel r2).map (fun p => (e :: p.1, p.2))
        else if e == 'b' then
          (parseStrBody fuel r2).map (fun p => (Char.ofNat 8 :: p.1, p.2))
        else if e == 'f' then
          (parseStrBody fuel r2).map (fun p => (Char.ofNat 12 :: p.1, p.2))
        else if e == 'n' then
          (parseStrBody fuel r2).map (fun p => ('\n' :: p.1, p.2))
        else if e == 'r' then
          (parseStrBody fuel r2).map (fun p => ('\r' :: p.1, p.2))
        else if e == 't' then
          (parseStrBody fuel r2).map (fun p => ('\t' :: p.1, p.2))
        else if e == 'u' then
          match r2 with
          | h1 :: h2 :: h3 :: h4 :: r3 =>
            match hexVal h1, hexVal h2, hexVal h3, hexVal h4 with
            | some v1, some v2, some v3, some v4 =>
              let n := ((v1 * 16 + v2) * 16 + v3) * 16 + v4
              if 55296 ≤ n && n ≤ 57343 then none
              else (parseStrBody fuel r3).map (fun p => (Char.ofNat n :: p.1, p.2))
            | _, _, _, _ => none
          | _ => none
        else none
    else if c.toNat < 32 then none
    else (parseStrBody fuel r).map (fun p => (c :: p.1, p.2))

/-- The integer value of a digit string. -/
def digitsToNat (ds : Str) : Nat :=
  ds.foldl (fun a c => a * 10 + (c.toNat - 48)) 0

/-- Parsing a JSON number.  Only integer literals are modelled: a fraction
or exponent part makes the parse fail (so texts containing non-integer
numbers fall through to the later strategies in this embedding). -/
def parseNumber (s : Str) : Option (Int × Str) :=
  let (neg, s1) : Bool × Str :=
    match s with
    | c :: r => if c == '-' then (true, r) else (false, s)
    | [] => (false, s)
  match s1 with
  | [] => none
  | c :: _ =>
    if !isDigitCh c then none
    else
      let ds := s1.takeWhile isDigitCh
      let rest := s1.dropWhile isDigitCh
      if 1 < ds.length && ds.headD ' ' == '0' then none
      else
        let bad := match rest with
          | p :: _ => p == '.' || p == 'e' || p == 'E'
          | [] => false
        if bad then none
        else
          let v : Int := Int.ofNat (digitsToNat ds)
          some (if neg then -v else v, rest)

mutual

/-- Parsing one JSON value (with fuel), returning the value and the
remaining input.  Models `json.loads` up to the restrictions noted above. -/
def parseVal : Nat → Str → Option (Json × Str)
  | 0, _ => none
  | fuel + 1, s =>
    match skipWs s with
    | [] => none
    | c :: r =>
      if c == lbrace then
        match skipWs r with
        | d :: r2 =>
          if d == rbrace then some (.obj [], r2)
          else (parseObjMembers fuel (skipWs r)).map (fun p => (.obj p.1, p.2))
        | [] => none
      else if c == '[' then
        match skipWs r with
        | d :: r2 =>
          if d == ']' then some (.arr [], r2)
          else (parseArrElems fuel (skipWs r)).map (fun p => (.arr p.1, p.2))
        | [] => none
      else if c == '"' then
        (parseStrBody (r.length + 1) r).map (fun p => (.str p.1, p.2))
      else if c == 't' then
        match r with
        | 'r' :: 'u' :: 'e' :: rest => some (.bool true, rest)
        | _ => none
      else if c == 'f' then
        match r with
        | 'a' :: 'l' :: 's' :: 'e' :: rest => some (.bool false, rest)
        | _ => none
      else if c == 'n' then
        match r with
        | 'u' :: 'l' :: 'l' :: rest => some (.null, rest)
        | _ => none
      else (parseNumber (c :: r)).map (fun p => (.num p.1, p.2))

/-- Parsing the comma-separated elements of a non-empty JSON array, up to
and including the closing bracket. -/
def parseArrElems : Nat → Str → Option (List Json × Str)
  | 0, _ => none
  | fuel + 1, s =>
    match parseVal fuel s with
    | none => none
    | some (j, rest) =>
      match skipWs rest with
      | c :: r2 =>
        if c == ',' then (parseArrElems fuel r2).map (fun p => (j :: p.1, p.2))
        else if c == ']' then some ([j], r2)
        else none
      | [] => none

/-- Parsing the members of a non-empty JSON object, up to and including
the closing brace. -/
def parseObjMembers : Nat → Str → Option (List (Str × Json) × Str)
  | 0, _ => none
  | fuel + 1, s =>
    match skipWs s with
    | c :: r =>
      if c == '"' then
        match parseStrBody (r.length + 1) r with
        | some (key, rest) =>
          match skipWs rest with
          | c2 :: r2 =>
            if c2 == ':' then
              match parseVal fuel r2 with
              | some (v, rest2) =>
                match skipWs rest2 with
                | c3 :: r3 =>
                  if c3 == ',' then
                    (parseObjMembers fuel r3).map (fun p => ((key, v) :: p.1, p.2))
                  else if c3 == rbrace then some ([(key, v)], r3)
                  else none
                | [] => none
              | none => none
            else none
          | [] => none
        | none => none
      else none
    | [] => none

end

/-- The model of `json.loads` on a whole text: parse one value and require
that only whitespace follows. -/
def parseJson (s : Str) : Option Json :=
  match parseVal (s.length + 1) s with
  | some (j, rest) => if (skipWs rest).isEmpty then some j else none
  | none => none

/-- The schema key names, fixed as character-list constants. -/
def diagK : Str := ("diagnostico").toList

/-- Key of the optional workload-adjustment field. -/
def ajusteK : Str := ("ajusteCarga").toList

/-- Key of the recommendations field. -/
def recsK : Str := ("recomendacoesAutocuidado").toList

/-- Key of the optional day-plan field. -/
def planoK : Str := ("planoDia").toList

/-- Key of the raw-text echo field. -/
def rawK : Str := ("rawText").toList

/-- Key of the optional error field. -/
def errK : Str := ("error").toList

/-- Key of a day-plan item title. -/
def tituloK : Str := ("titulo").toList

/-- Key of a day-plan item duration. -/
def duracaoK : Str := ("duracaoMin").toList

/-- Key of a day-plan item kind. -/
def tipoK : Str := ("tipo").toList

/-- Key of a day-plan item details field. -/
def detalhesK : Str := ("detalhes").toList

/-- The string payload of a JSON string value, if it is one (pydantic v2
does not coerce other values into `str` fields). -/
def asStr : Json → Option Str
  | .str s => some s
  | _ => none

/-- The integer payload of a JSON number, if it is one. -/
def asInt : Json → Option Int
  | .num n => some n
  | _ => none

/-- Last-wins key lookup, matching the semantics of a Python `dict` built
from a JSON object with (possibly) repeated keys. -/
def lookupLast (kvs : List (Str × Json)) (k : Str) : Option Json :=
  match kvs with
  | [] => none
  | (k', v) :: rest =>
    match lookupLast rest k with
    | some w => some w
    | none => if k' = k then some v else none

/-- Decoding an `Optional[str]` field: absent or `null` yields `none`, a
string yields the string, anything else is a validation failure. -/
def decodeOptStr : Option Json → Option (Option Str)
  | none => some none
  | some .null => some none
  | some (.str s) => some (some s)
  | some _ => none

/-- Decoding an `Optional[int]` field. -/
def decodeOptInt : Option Json → Option (Option Int)
  | none => some none
  | some .null => some none
  | some (.num n) => some (some n)
  | some _ => none

/-- Decoding a JSON array expected to consist of strings. -/
def decodeStrList : List Json → Option (List Str)
  | [] => some []
  | .str s :: rest => (decodeStrList rest).map (fun ss => s :: ss)
  | _ :: _ => none

/-- Decoding the `recomendacoesAutocuidado` field (`List[str]` with
default `[]`): absent yields the default, a list must consist of strings,
anything else (including `null`) is a validation failure. -/
def decodeRecs : Option Json → Option (List Str)
  | none => some []
  | some (.arr xs) => decodeStrList xs
  | some _ => none

/-- Decoding one `PlanoDiaItem` object: `titulo` is a required string;
the remaining fields are optional; extra keys are ignored. -/
def decodeItem : Json → Option PlanoDiaItem
  | .obj kvs =>
    match lookupLast kvs tituloK with
    | some (.str ti) =>
      match decodeOptInt (lookupLast kvs duracaoK) with
      | some du =>
        match decodeOptStr (lookupLast kvs tipoK) with
        | some tp =>
          match decodeOptStr (lookupLast kvs detalhesK) with
          | some de => some { titulo := ti, duracaoMin := du, tipo := tp, detalhes := de }
          | none => none
        | none => none
      | none => none
    | _ => none
  | _ => none

/-- Decoding a JSON array expected to consist of day-plan items. -/
def decodeItems : List Json → Option (List PlanoDiaItem)
  | [] => some []
  | j :: rest =>
    match decodeItem j with
    | some it => (decodeItems rest).map (fun its => it :: its)
    | none => none

/-- Decoding the optional `planoDia` field. -/
def decodePlano : Option Json → Option (Option (List PlanoDiaItem))
  | none => some none
  | some .null => some none
  | some (.arr xs) => (decodeItems xs).map some
  | some _ => none

/-- The model of `AjusteResponse(**parsed, rawText=text)`: pydantic
validation of a parsed JSON value against the response schema.  A
non-object value is a `TypeError`; an explicit `rawText` key collides with
the keyword argument (a `TypeError` in Python); extra keys are ignored;
each typed field validates as in pydantic v2. -/
def decodeResponse (j : Json) (raw : Str) : Option AjusteResponse :=
  match j with
  | .obj kvs =>
    match lookupLast kvs rawK with
    | some _ => none
    | none =>
      match lookupLast kvs diagK with
      | some (.str d) =>
        match decodeOptStr (lookupLast kvs ajusteK) with
        | some aj =>
          match decodeRecs (lookupLast kvs recsK) with
          | some recs =>
            match decodePlano (lookupLast kvs planoK) with
            | some plano =>
              match decodeOptStr (lookupLast kvs errK) with
              | some err =>
                some { diagnostico := d, ajusteCarga := aj,
                       recomendacoesAutocuidado := recs, planoDia := plano,
                       rawText := some raw, error := err }
              | none => none
            | none => none
          | none => none
        | none => none
      | _ => none
  | _ => none

/-- The first JSON-parsing strategy of the handler: `json.loads` on the
whole text followed by schema validation. -/
def strictDecode (t : Str) : Option AjusteResponse :=
  (parseJson t).bind (fun j => decodeResponse j t)

/-- The model of `re.search(r"\{[\s\S]*\}", text)`: the greedy pattern
matches from the first opening brace of the text to the last closing
brace, when the latter lies beyond the former. -/
def extractBrace (l : Str) : Option Str :=
  match ((l.dropWhile (fun c => c != lbrace)).reverse.dropWhile (fun c => c != rbrace)).reverse with
  | [] => none
  | m => some m

/-- The second JSON-parsing strategy of the handler: extract the brace
block, parse it, and validate (`rawText` is still the full reply text). -/
def embeddedDecode (t : Str) : Option AjusteResponse :=
  (extractBrace t).bind (fun s => (parseJson s).bind (fun j => decodeResponse j t))

/-- The response-normalization chain of the handler (lines 158-173 of
`main.py`): strict JSON parse, then embedded JSON extraction, then the
heuristic fallback. -/
def normalize (t : Str) : AjusteResponse :=
  match strictDecode t with
  | some r => r
  | none =>
    match embeddedDecode t with
    | some r => r
    | none => parse_text_fallback t

/-- The raw (typed but not yet range-checked) request body of
`POST /api/ai/ajuste`. -/
structure RawAjuste where
  recoveryStatus : Int
  perceivedFatigue : Int
  focusLevel : Int
  sleepHours : ℚ
  mainTask : Str

/-- The pydantic validation of `AjusteRequest`: three 0-10 integer
fields, a 0-24 numeric field, and a non-empty task string. -/
def validAjuste (r : RawAjuste) : Prop :=
  0 ≤ r.recoveryStatus ∧ r.recoveryStatus ≤ 10 ∧
  0 ≤ r.perceivedFatigue ∧ r.perceivedFatigue ≤ 10 ∧
  0 ≤ r.focusLevel ∧ r.focusLevel ≤ 10 ∧
  0 ≤ r.sleepHours ∧ r.sleepHours ≤ 24 ∧
  r.mainTask ≠ []

instance (r : RawAjuste) : Decidable (validAjuste r) := by
  unfold validAjuste
  infer_instance

/-- The outcome of the single outbound call to the model gateway: either
the call raised (transport/API error, configuration parsing error, ...) or
it returned a text payload (`None` from `getattr` is modelled as the empty
text, which the handler treats identically). -/
inductive Upstream where
  | callError (msg : Str)
  | reply (text : Str)

/-- An HTTP outcome of the adjustment endpoint. -/
inductive HttpResult where
  | ok (body : AjusteResponse)
  | clientError (status : Nat)
  | serverError (status : Nat)
deriving DecidableEq

/-- The fixed safe-fallback body built on lines 179-184 of `main.py`. -/
def fallbackBody (e : Str) : AjusteResponse :=
  { diagnostico := ("Falha na IA").toList
    ajusteCarga := none
    recomendacoesAutocuidado := [("Respiração 4-7-8").toList, ("Alongamento rápido").toList]
    planoDia := none
    rawText := some e
    error := some e }

/-- The error message of the guard `if not text: raise ValueError(...)`. -/
def emptyReplyMsg : Str := ("Resposta vazia da IA").toList

/-- The adjustment endpoint (`ajustar_carga` plus the framework-level
request validation).  The first component is the HTTP outcome; the second
records whether the outbound gateway call was made.  `clientReady` models
`_client is not None`. -/
def ajuste_endpoint (clientReady : Bool) (up : Upstream) (raw : RawAjuste) :
    HttpResult × Bool :=
  if validAjuste raw then
    if clientReady then
      match up with
      | .callError e => (.ok (fallbackBody e), true)
      | .reply t =>
        if t.isEmpty then (.ok (fallbackBody emptyReplyMsg), true)
        else (.ok (normalize t), true)
    else (.serverError 500, false)
  else (.clientError 422, false)

/-- The health endpoint (`healthz` in `main.py`), modelled as the ordered
field list of the returned JSON object. -/
def healthz (model : Str) (hasKey : Bool) : List (Str × Json) :=
  [(("ok").toList, .bool true),
   (("model").toList, .str model),
   (("hasKey").toList, .bool hasKey)]

/-- Whether a JSON value is a string. -/
def isStrB : Json → Bool
  | .str _ => true
  | _ => false

/-- Well-typedness of an optional string field's raw value. -/
def optStrOk : Option Json → Bool
  | none => true
  | some .null => true
  | some (.str _) => true
  | some _ => false

/-- Well-typedness of an optional integer field's raw value. -/
def optIntOk : Option Json → Bool
  | none => true
  | some .null => true
  | some (.num _) => true
  | some _ => false

/-- Well-typedness of one day-plan item against the prompt's item schema:
a JSON object with a string `titulo` and optional `duracaoMin`, `tipo`,
`detalhes` of the right types. -/
def itemOk : Json → Bool
  | .obj kvs =>
    (match lookupLast kvs tituloK with
     | some (.str _) => true
     | _ => false) &&
    optIntOk (lookupLast kvs duracaoK) &&
    optStrOk (lookupLast kvs tipoK) &&
    optStrOk (lookupLast kvs detalhesK)
  | _ => false

/-- Well-typedness of the optional `planoDia` field's raw value. -/
def planoOk : Option Json → Bool
  | none => true
  | some .null => true
  | some (.arr xs) => xs.all itemOk
  | some _ => false

/-- Well-typedness of the `recomendacoesAutocuidado` field's raw value. -/
def recsOk : Option Json → Bool
  | none => true
  | some (.arr xs) => xs.all isStrB
  | some _ => false

/-- The four keys of the target response schema demanded by the prompt. -/
def fourKeys : List Str := [diagK, ajusteK, recsK, planoK]

/-- A parsed JSON object matches the target response schema: its keys are
among the four schema keys and each present field is well-typed, with the
required `diagnostico` present as a string. -/
def schemaOk (kvs : List (Str × Json)) : Bool :=
  kvs.all (fun kv => decide (kv.1 ∈ fourKeys)) &&
  (match lookupLast kvs diagK with
   | some (.str _) => true
   | _ => false) &&
  optStrOk (lookupLast kvs ajusteK) &&
  recsOk (lookupLast kvs recsK) &&
  planoOk (lookupLast kvs planoK)

/-- Contiguous-substring relation on the string model. -/
def isSubstr (m t : Str) : Prop := ∃ u v, t = u ++ m ++ v

/-- The non-JSON reply text of the specification's worked example. -/
def feelingText : Str := ("Feeling tired. 1. Take a 10 min break 2. Stretch").toList

/-- A strict-JSON reply whose schema fields are present but empty. -/
def emptyFieldsReply : Str :=
  ("\x7b\"diagnostico\": \"\", \"recomendacoesAutocuidado\": []\x7d").toList

/-- A schema-matching JSON object as a text. -/
def objStr0 : Str :=
  ("\x7b\"diagnostico\": \"ok\", \"recomendacoesAutocuidado\": [\"a\"]\x7d").toList

/-- A reply wrapping `objStr0` in prose whose trailing part contains a
closing brace (an emoticon). -/
def smileyReply : Str := ("Result: ").toList ++ objStr0 ++ (" :-\x7d").toList

/-- A well-within-bounds request used to instantiate endpoint theorems. -/
def rawOk : RawAjuste :=
  { recoveryStatus := 5, perceivedFatigue := 5, focusLevel := 5,
    sleepHours := 8, mainTask := ("estudar").toList }

theorem linesOf_ne_nil {t l : Str} (h : l ∈ linesOf t) : l ≠ [] := by
  unfold linesOf at h
  have hp := List.of_mem_filter h
  intro he
  subst he
  simp at hp

/-- Claim C8 (corrected): the health endpoint is a total pure function
whose result has exactly the fields `ok`, `model`, `hasKey` (there is no
`clientReady` field), with `ok` always `true`, `model` the model name and
`hasKey` the credential flag. -/
theorem claim_C8 (model : Str) (hasKey : Bool) :
    (healthz model hasKey).map Prod.fst =
      [("ok").toList, ("model").toList, ("hasKey").toList] ∧
    healthz model hasKey =
      [(("ok").toList, Json.bool true), (("model").toList, Json.str model),
       (("hasKey").toList, Json.bool hasKey)] :=
  ⟨rfl, rfl⟩

/-- Claim C8, counterexample to the claim as stated: the health response
does not carry a `clientReady` field, so its field set is not
`{ok, model, hasKey, clientReady}`. -/
theorem claim_C8_counterexample :
    ¬ (("clientReady").toList ∈ (healthz (("gemini-2.5-flash").toList) true).map Prod.fst) ∧
    (healthz (("gemini-2.5-flash").toList) true).map Prod.fst ≠
      [("ok").toList, ("model").toList, ("hasKey").toList, ("clientReady").toList] := by
  decide

/-- Claim C3: a request with any numeric field out of bounds or an empty
main task is rejected with a client error, and the outbound gateway call
is never made. -/
theorem claim_C3 (c : Bool) (up : Upstream) (raw : RawAjuste)
    (h : raw.recoveryStatus < 0 ∨ 10 < raw.recoveryStatus ∨
         raw.perceivedFatigue < 0 ∨ 10 < raw.perceivedFatigue ∨
         raw.focusLevel < 0 ∨ 10 < raw.focusLevel ∨
         raw.sleepHours < 0 ∨ 24 < raw.sleepHours ∨ raw.mainTask = []) :
    ajuste_endpoint c up raw = (.clientError 422, false) := by
  have hv : ¬ validAjuste raw := by
    intro hva
    obtain ⟨h1, h2, h3, h4, h5, h6, h7, h8, h9⟩ := hva
    rcases h with h | h | h | h | h | h | h | h | h
    · omega
    · omega
    · omega
    · omega
    · omega
    · omega
    · linarith
    · linarith
    · exact h9 h
  unfold ajuste_endpoint
  rw [if_neg hv]

/-- Claim C3, witness at `recoveryStatus = 11`. -/
theorem claim_C3_witness :
    ajuste_endpoint true (.reply (("x").toList))
      { recoveryStatus := 11, perceivedFatigue := 5, focusLevel := 5,
        sleepHours := 8, mainTask := ("estudar").toList } = (.clientError 422, false) :=
  claim_C3 _ _ _ (Or.inr (Or.inl (by decide)))

/-- Claim C9: the heuristic fallback is total in this embedding (the
`try` body cannot fail, so the `except` conversion is unreachable) and on
every input it yields a complete response: non-empty diagnosis, between
one and five recommendations, and the raw text echoed. -/
theorem claim_C9 (t : Str) :
    (parse_text_fallback t).diagnostico ≠ [] ∧
    (parse_text_fallback t).recomendacoesAutocuidado ≠ [] ∧
    (parse_text_fallback t).recomendacoesAutocuidado.length ≤ 5 ∧
    (parse_text_fallback t).rawText = some t := by
  unfold parse_text_fallback
  dsimp only
  refine ⟨?_, ?_, ?_, rfl⟩
  · cases hL : linesOf t with
    | nil => simp [hL, textoLivre]
    | cons l ls =>
      simp only [hL]
      have hl : l ≠ [] := linesOf_ne_nil (hL ▸ List.mem_cons_self l ls)
      have hlen : 0 < l.length := List.length_pos.mpr hl
      apply List.ne_nil_of_length_pos
      rw [List.length_take]
      omega
  · cases hF : ((linesOf t).drop 1).filter (fun l => isSuggestion l || hasDur l) with
    | nil => decide
    | cons a as => simp
  · cases hF : ((linesOf t).drop 1).filter (fun l => isSuggestion l || hasDur l) with
    | nil => decide
    | cons a as =>
      simp only [List.isEmpty_cons, Bool.false_eq_true, if_false, List.length_take]
      omega

/-- Claim C2: the adjustment endpoint yields an error status only for a
validation failure (client error) or an uninitialized gateway client
(server error); for a valid request with the client ready it always
returns HTTP 200, and on a raised upstream call or an empty payload the
body is exactly the fixed safe-fallback response. -/
theorem claim_C2 (c : Bool) (up : Upstream) (raw : RawAjuste) :
    ((∃ s, (ajuste_endpoint c up raw).1 = .clientError s) → ¬ validAjuste raw) ∧
    ((∃ s, (ajuste_endpoint c up raw).1 = .serverError s) → c = false) ∧
    (validAjuste raw → c = true →
      (∀ e, up = .callError e → (ajuste_endpoint c up raw).1 = .ok (fallbackBody e)) ∧
      (up = .reply [] → (ajuste_endpoint c up raw).1 = .ok (fallbackBody emptyReplyMsg)) ∧
      (∃ body, (ajuste_endpoint c up raw).1 = .ok body)) := by
  unfold ajuste_endpoint
  by_cases hv : validAjuste raw
  · rw [if_pos hv]
    cases c with
    | false =>
      refine ⟨?_, ?_, ?_⟩
      · rintro ⟨s, hs⟩
        simp at hs
      · intro _
        rfl
      · intro _ hc
        simp at hc
    | true =>
      cases up with
      | callError e =>
        refine ⟨?_, ?_, ?_⟩
        · rintro ⟨s, hs⟩
          simp at hs
        · rintro ⟨s, hs⟩
          simp at hs
        · intro _ _
          refine ⟨?_, ?_, ⟨fallbackBody e, rfl⟩⟩
          · intro e' he
            cases he
            rfl
          · intro he
            cases he
      | reply t =>
        cases ht : t.isEmpty with
        | true =>
          refine ⟨?_, ?_, ?_⟩
          · rintro ⟨s, hs⟩
            simp [ht] at hs
          · rintro ⟨s, hs⟩
            simp [ht] at hs
          · intro _ _
            refine ⟨?_, ?_, ⟨fallbackBody emptyReplyMsg, by simp [ht]⟩⟩
            · intro e' he
              cases he
            · intro _
              simp [ht]
        | false =>
          refine ⟨?_, ?_, ?_⟩
          · rintro ⟨s, hs⟩
            simp [ht] at hs
          · rintro ⟨s, hs⟩
            simp [ht] at hs
          · intro _ _
            refine ⟨?_, ?_, ⟨normalize t, by simp [ht]⟩⟩
            · intro e' he
              cases he
            · intro he
              cases he
              simp at ht
  · rw [if_neg hv]
    refine ⟨fun _ => hv, ?_, ?_⟩
    · rintro ⟨s, hs⟩
      simp at hs
    · intro hva
      exact absurd hva hv

/-- Claim C2, witness: a raised upstream call on a valid request yields
HTTP 200 with the fixed safe-fallback body. -/
theorem claim_C2_witness :
    (ajuste_endpoint true (.callError (("boom").toList)) rawOk).1 =
      .ok (fallbackBody (("boom").toList)) :=
  ((claim_C2 true (.callError (("boom").toList)) rawOk).2.2 (by decide) rfl).1
    (("boom").toList) rfl

/-- Claim C7 (corrected): the example reply contains no line-break or
bullet separator, so the heuristic treats it as one segment: the whole
text (48 characters, within the 140-character bound) becomes the
diagnosis, the recommendations default to the single fixed entry, and no
workload adjustment is extracted. -/
theorem claim_C7 :
    parse_text_fallback feelingText =
      { diagnostico := feelingText, ajusteCarga := none,
        recomendacoesAutocuidado := [pausaLeve], planoDia := none,
        rawText := some feelingText, error := none } := by
  decide

/-- Claim C7, counterexample to the claim as stated: on the example reply
the diagnosis is not the first sentence, and neither numbered item
appears among the recommendations. -/
theorem claim_C7_counterexample :
    (parse_text_fallback feelingText).diagnostico ≠ ("Feeling tired.").toList ∧
    ¬ ("1. Take a 10 min break").toList ∈
        (parse_text_fallback feelingText).recomendacoesAutocuidado ∧
    ¬ ("2. Stretch").toList ∈
        (parse_text_fallback feelingText).recomendacoesAutocuidado := by
  decide

/-- Claim C6 (corrected): on text in which no segment after the first
matches a self-care keyword or a duration pattern and no load-change verb
occurs, the heuristic returns the single fixed recommendation and no
workload adjustment — but the diagnosis is the first non-empty segment
truncated to 140 characters, and equals the fixed default text only when
the input has no non-empty segment. -/
theorem claim_C6 (t : Str)
    (hrecs : ∀ l ∈ (linesOf t).drop 1, isSuggestion l = false ∧ hasDur l = false)
    (hload : findLoad t = none) :
    parse_text_fallback t =
      { diagnostico := match linesOf t with | [] => textoLivre | l :: _ => l.take 140,
        ajusteCarga := none, recomendacoesAutocuidado := [pausaLeve],
        planoDia := none, rawText := some t, error := none } := by
  unfold parse_text_fallback
  dsimp only
  have hF : ((linesOf t).drop 1).filter (fun l => isSuggestion l || hasDur l) = [] := by
    apply List.filter_eq_nil_iff.mpr
    intro a ha
    obtain ⟨h1, h2⟩ := hrecs a ha
    simp [h1, h2]
  rw [hF, hload]
  rfl

/-- Claim C6, counterexample to the claim as stated: the text `ola`
contains no embedded JSON, no keyword segment, no duration pattern and no
load-change verb, yet the diagnosis is `ola`, not the fixed default. -/
theorem claim_C6_counterexample :
    extractBrace (("ola").toList) = none ∧
    (linesOf (("ola").toList)).drop 1 = [] ∧
    isSuggestion (("ola").toList) = false ∧
    hasDur (("ola").toList) = false ∧
    findLoad (("ola").toList) = none ∧
    (parse_text_fallback (("ola").toList)).diagnostico ≠ textoLivre ∧
    (parse_text_fallback (("ola").toList)).recomendacoesAutocuidado = [pausaLeve] := by
  decide

/-- Claim C6, witness for the amended statement at the input `ola`. -/
theorem claim_C6_witness :
    parse_text_fallback (("ola").toList) =
      { diagnostico := ("ola").toList, ajusteCarga := none,
        recomendacoesAutocuidado := [pausaLeve], planoDia := none,
        rawText := some (("ola").toList), error := none } :=
  claim_C6 (("ola").toList) (by decide) (by decide)

theorem ptf_ne (t : Str) :
    (parse_text_fallback t).diagnostico ≠ [] ∧
    (parse_text_fallback t).recomendacoesAutocuidado ≠ [] := by
  unfold parse_text_fallback
  dsimp only
  constructor
  · cases hL : linesOf t with
    | nil => simp [hL, textoLivre]
    | cons l ls =>
      simp only [hL]
      have hl : l ≠ [] := linesOf_ne_nil (hL ▸ List.mem_cons_self l ls)
      have hlen : 0 < l.length := List.length_pos.mpr hl
      apply List.ne_nil_of_length_pos
      rw [List.length_take]
      omega
  · cases hF : ((linesOf t).drop 1).filter (fun l => isSuggestion l || hasDur l) with
    | nil => decide
    | cons a as => simp

/-- Claim C1 (corrected): for every in-bounds request with the client
initialized the endpoint returns HTTP 200, and the body has a non-empty
diagnosis and non-empty recommendations whenever the upstream call raised,
the payload was empty, or the reply was handled by the heuristic fallback
(both JSON strategies failing); when a JSON strategy succeeds the fields
are copied verbatim from the JSON and may be empty. -/
theorem claim_C1 (c : Bool) (raw : RawAjuste) (up : Upstream)
    (hv : validAjuste raw) (hc : c = true) :
    (∃ body, (ajuste_endpoint c up raw).1 = .ok body) ∧
    (∀ e, up = .callError e → ∃ body, (ajuste_endpoint c up raw).1 = .ok body ∧
        body.diagnostico ≠ [] ∧ body.recomendacoesAutocuidado ≠ []) ∧
    (up = .reply [] → ∃ body, (ajuste_endpoint c up raw).1 = .ok body ∧
        body.diagnostico ≠ [] ∧ body.recomendacoesAutocuidado ≠ []) ∧
    (∀ t, up = .reply t → t ≠ [] → strictDecode t = none → embeddedDecode t = none →
      ∃ body, (ajuste_endpoint c up raw).1 = .ok body ∧
        body.diagnostico ≠ [] ∧ body.recomendacoesAutocuidado ≠ []) := by
  subst hc
  unfold ajuste_endpoint
  rw [if_pos hv]
  cases up with
  | callError e =>
    refine ⟨⟨fallbackBody e, rfl⟩, ?_, ?_, ?_⟩
    · intro e' he
      cases he
      refine ⟨fallbackBody e, rfl, ?_, ?_⟩
      · simp only [fallbackBody]
        decide
      · simp only [fallbackBody]
        decide
    · intro he
      cases he
    · intro t' he
      cases he
  | reply t =>
    cases ht : t.isEmpty with
    | true =>
      have ht' : t = [] := by
        simpa [List.isEmpty_iff] using ht
      refine ⟨⟨fallbackBody emptyReplyMsg, by simp [ht]⟩, ?_, ?_, ?_⟩
      · intro e' he
        cases he
      · intro _
        refine ⟨fallbackBody emptyReplyMsg, by simp [ht], ?_, ?_⟩
        · simp only [fallbackBody]
          decide
        · simp only [fallbackBody]
          decide
      · intro t' he hne _ _
        cases he
        exact absurd ht' hne
    | false =>
      refine ⟨⟨normalize t, by simp [ht]⟩, ?_, ?_, ?_⟩
      · intro e' he
        cases he
      · intro he
        cases he
        simp at ht
      · intro t' he hne h1 h2
        cases he
        refine ⟨normalize t, by simp [ht], ?_⟩
        have hn : normalize t = parse_text_fallback t := by
          simp only [normalize, h1, h2]
        rw [hn]
        exact ptf_ne t

/-- Claim C1, witness: a raised upstream call on an in-bounds request
yields a 200 body with non-empty diagnosis and recommendations. -/
theorem claim_C1_witness :
    ∃ body, (ajuste_endpoint true (.callError (("boom").toList)) rawOk).1 = .ok body ∧
      body.diagnostico ≠ [] ∧ body.recomendacoesAutocuidado ≠ [] :=
  (claim_C1 true rawOk (.callError (("boom").toList)) (by decide) rfl).2.1
    (("boom").toList) rfl

/-- Claim C1, counterexample to the claim as stated: an in-bounds request
whose upstream reply is the schema-valid JSON object with empty fields is
answered with HTTP 200 carrying an empty diagnosis and an empty
recommendations list. -/
theorem claim_C1_counterexample :
    (ajuste_endpoint true (.reply emptyFieldsReply) rawOk).1 =
      .ok { diagnostico := [], ajusteCarga := none, recomendacoesAutocuidado := [],
            planoDia := none, rawText := some emptyFieldsReply, error := none } := by
  decide


theorem lookupLast_none {kvs : List (Str × Json)} {k : Str}
    (h : ∀ kv ∈ kvs, kv.1 ≠ k) : lookupLast kvs k = none := by
  induction kvs with
  | nil => rfl
  | cons kv rest ih =>
    obtain ⟨k', v⟩ := kv
    simp only [lookupLast]
    rw [ih (fun kv hkv => h kv (List.mem_cons_of_mem _ hkv))]
    rw [if_neg (h (k', v) (List.mem_cons_self _ _))]

theorem decodeOptStr_none : decodeOptStr none = some none := rfl

theorem decodeOptStr_ok {o : Option Json} (h : optStrOk o = true) :
    ∃ v, decodeOptStr o = some v := by
  cases o with
  | none => exact ⟨none, rfl⟩
  | some j => cases j <;> simp_all [optStrOk, decodeOptStr]

theorem decodeOptInt_ok {o : Option Json} (h : optIntOk o = true) :
    ∃ v, decodeOptInt o = some v := by
  cases o with
  | none => exact ⟨none, rfl⟩
  | some j => cases j <;> simp_all [optIntOk, decodeOptInt]

theorem decodeStrList_ok {xs : List Json} (h : xs.all isStrB = true) :
    ∃ ss, decodeStrList xs = some ss := by
  induction xs with
  | nil => exact ⟨[], rfl⟩
  | cons x rest ih =>
    simp only [List.all_cons, Bool.and_eq_true] at h
    obtain ⟨hx, hrest⟩ := h
    obtain ⟨ss, hss⟩ := ih hrest
    cases x
    case str s => exact ⟨s :: ss, by simp [decodeStrList, hss]⟩
    all_goals simp [isStrB] at hx

theorem decodeRecs_ok {o : Option Json} (h : recsOk o = true) :
    ∃ v, decodeRecs o = some v := by
  cases o with
  | none => exact ⟨[], rfl⟩
  | some j =>
    cases j
    case arr xs =>
      have h' : xs.all isStrB = true := h
      obtain ⟨ss, hss⟩ := decodeStrList_ok h'
      exact ⟨ss, by simpa [decodeRecs] using hss⟩
    all_goals simp [recsOk] at h

theorem decodeItem_ok {j : Json} (h : itemOk j = true) :
    ∃ it, decodeItem j = some it := by
  cases j
  case obj kvs =>
    simp only [itemOk, Bool.and_eq_true] at h
    obtain ⟨⟨⟨h1, h2⟩, h3⟩, h4⟩ := h
    obtain ⟨du, hdu⟩ := decodeOptInt_ok h2
    obtain ⟨tp, htp⟩ := decodeOptStr_ok h3
    obtain ⟨de, hde⟩ := decodeOptStr_ok h4
    cases htit : lookupLast kvs tituloK with
    | none => rw [htit] at h1; simp at h1
    | some j' =>
      cases j' <;> rw [htit] at h1 <;> simp at h1
      case str s =>
        exact ⟨⟨s, du, tp, de⟩, by simp [decodeItem, htit, hdu, htp, hde]⟩
  all_goals simp [itemOk] at h

theorem decodeItems_ok {xs : List Json} (h : xs.all itemOk = true) :
    ∃ its, decodeItems xs = some its := by
  induction xs with
  | nil => exact ⟨[], rfl⟩
  | cons x rest ih =>
    simp only [List.all_cons, Bool.and_eq_true] at h
    obtain ⟨hx, hrest⟩ := h
    obtain ⟨its, hits⟩ := ih hrest
    obtain ⟨it, hit⟩ := decodeItem_ok hx
    exact ⟨it :: its, by simp [decodeItems, hit, hits]⟩

theorem decodePlano_ok {o : Option Json} (h : planoOk o = true) :
    ∃ v, decodePlano o = some v := by
  cases o with
  | none => exact ⟨none, rfl⟩
  | some j =>
    cases j
    case arr xs =>
      have h' : xs.all itemOk = true := h
      obtain ⟨its, hits⟩ := decodeItems_ok h'
      exact ⟨some its, by simp [decodePlano, hits]⟩
    case null => exact ⟨none, rfl⟩
    all_goals simp [planoOk] at h

theorem mem_fourKeys_ne {x : Str} (h : x ∈ fourKeys) :
    x ≠ rawK ∧ x ≠ errK := by
  simp only [fourKeys, List.mem_cons, List.not_mem_nil, or_false] at h
  rcases h with h | h | h | h <;> subst h <;> exact ⟨by decide, by decide⟩

/-- Claim C4: for every upstream reply that `json.loads` parses as a JSON
object matching the target four-key response schema, the normalizer takes
the strict path and the returned diagnosis, workload-adjustment,
recommendations and day-plan fields are exactly the decoded JSON values,
with the raw reply echoed and no error. -/
theorem claim_C4 (t : Str) (kvs : List (Str × Json))
    (hp : parseJson t = some (.obj kvs)) (hs : schemaOk kvs = true) :
    ∃ body, normalize t = body ∧
      lookupLast kvs diagK = some (.str body.diagnostico) ∧
      decodeOptStr (lookupLast kvs ajusteK) = some body.ajusteCarga ∧
      decodeRecs (lookupLast kvs recsK) = some body.recomendacoesAutocuidado ∧
      decodePlano (lookupLast kvs planoK) = some body.planoDia ∧
      body.rawText = some t ∧ body.error = none := by
  simp only [schemaOk, Bool.and_eq_true] at hs
  obtain ⟨⟨⟨⟨hkeys, hdiag⟩, haj⟩, hrecs⟩, hplan⟩ := hs
  have hmem : ∀ kv ∈ kvs, kv.1 ∈ fourKeys := by
    intro kv hkv
    exact of_decide_eq_true (List.all_eq_true.mp hkeys kv hkv)
  have hraw : lookupLast kvs rawK = none :=
    lookupLast_none (fun kv hkv => (mem_fourKeys_ne (hmem kv hkv)).1)
  have herr : lookupLast kvs errK = none :=
    lookupLast_none (fun kv hkv => (mem_fourKeys_ne (hmem kv hkv)).2)
  obtain ⟨aj, hajv⟩ := decodeOptStr_ok haj
  obtain ⟨recs, hrecsv⟩ := decodeRecs_ok hrecs
  obtain ⟨plan, hplanv⟩ := decodePlano_ok hplan
  cases hd : lookupLast kvs diagK with
  | none => rw [hd] at hdiag; simp at hdiag
  | some j' =>
    cases j' <;> rw [hd] at hdiag <;> simp at hdiag
    case str d =>
      refine ⟨⟨d, aj, recs, plan, some t, none⟩, ?_, ?_, ?_, ?_, ?_, rfl, rfl⟩
      · have hdec : decodeResponse (.obj kvs) t =
            some ⟨d, aj, recs, plan, some t, none⟩ := by
          simp only [decodeResponse, hraw, herr, hd, hajv, hrecsv, hplanv, decodeOptStr_none]
        simp only [normalize, strictDecode, hp, Option.some_bind, hdec]
      · rfl
      · exact hajv
      · exact hrecsv
      · exact hplanv

set_option maxRecDepth 8192 in
/-- Claim C4, witness on a reply populating all four schema fields. -/
theorem claim_C4_witness :
    ∃ body,
      normalize (("\x7b\"diagnostico\": \"ok\", \"ajusteCarga\": \"menos\", \"recomendacoesAutocuidado\": [\"a\"], \"planoDia\": [\x7b\"titulo\": \"x\", \"duracaoMin\": 30\x7d]\x7d").toList) = body ∧
      lookupLast [(diagK, Json.str (("ok").toList)),
       (ajusteK, Json.str (("menos").toList)),
       (recsK, Json.arr [Json.str (("a").toList)]),
       (planoK, Json.arr [Json.obj
          [(tituloK, Json.str (("x").toList)),
           (duracaoK, Json.num 30)]])] diagK = some (.str body.diagnostico) ∧
      decodeOptStr (lookupLast [(diagK, Json.str (("ok").toList)),
       (ajusteK, Json.str (("menos").toList)),
       (recsK, Json.arr [Json.str (("a").toList)]),
       (planoK, Json.arr [Json.obj
          [(tituloK, Json.str (("x").toList)),
           (duracaoK, Json.num 30)]])] ajusteK) = some body.ajusteCarga ∧
      decodeRecs (lookupLast [(diagK, Json.str (("ok").toList)),
       (ajusteK, Json.str (("menos").toList)),
       (recsK, Json.arr [Json.str (("a").toList)]),
       (planoK, Json.arr [Json.obj
          [(tituloK, Json.str (("x").toList)),
           (duracaoK, Json.num 30)]])] recsK) = some body.recomendacoesAutocuidado ∧
      decodePlano (lookupLast [(diagK, Json.str (("ok").toList)),
       (ajusteK, Json.str (("menos").toList)),
       (recsK, Json.arr [Json.str (("a").toList)]),
       (planoK, Json.arr [Json.obj
          [(tituloK, Json.str (("x").toList)),
           (duracaoK, Json.num 30)]])] planoK) = some body.planoDia ∧
      body.rawText = some (("\x7b\"diagnostico\": \"ok\", \"ajusteCarga\": \"menos\", \"recomendacoesAutocuidado\": [\"a\"], \"planoDia\": [\x7b\"titulo\": \"x\", \"duracaoMin\": 30\x7d]\x7d").toList) ∧ body.error = none :=
  claim_C4 _ _ rfl (by decide)

theorem dropWhile_append_all {p : Char → Bool} {l1 l2 : Str}
    (h : ∀ c ∈ l1, p c = true) :
    (l1 ++ l2).dropWhile p = l2.dropWhile p := by
  induction l1 with
  | nil => rfl
  | cons c r ih =>
    simp only [List.cons_append, List.dropWhile_cons, h c (List.mem_cons_self _ _), if_true]
    exact ih (fun c' hc' => h c' (List.mem_cons_of_mem _ hc'))

theorem dropWhile_cons_neg {p : Char → Bool} {c : Char} {l : Str}
    (h : p c = false) : (c :: l).dropWhile p = c :: l := by
  simp [List.dropWhile_cons, h]

theorem extractBrace_eq {pre objStr post : Str}
    (hpre : ∀ c ∈ pre, (c != lbrace) = true)
    (hpost : ∀ c ∈ post, (c != rbrace) = true)
    (hhead : ∃ m, objStr = lbrace :: m)
    (hlast : ∃ i, objStr = i ++ [rbrace]) :
    extractBrace (pre ++ objStr ++ post) = some objStr := by
  obtain ⟨m, hm⟩ := hhead
  obtain ⟨i, hi⟩ := hlast
  have step1 : (pre ++ objStr ++ post).dropWhile (fun c => c != lbrace) = objStr ++ post := by
    rw [List.append_assoc, dropWhile_append_all hpre]
    rw [hm]
    exact dropWhile_cons_neg (by simp)
  have step2 : ((objStr ++ post).reverse.dropWhile (fun c => c != rbrace)).reverse = objStr := by
    rw [List.reverse_append, dropWhile_append_all]
    · rw [hi, List.reverse_append]
      simp only [List.reverse_cons, List.reverse_nil, List.nil_append, List.singleton_append]
      rw [dropWhile_cons_neg (by simp)]
      simp [hi]
    · intro c hc
      exact hpost c (List.mem_reverse.mp hc)
  unfold extractBrace
  rw [step1, step2, hm]

theorem parseVal_obj_head {fuel : Nat} {s : Str} {kvs : List (Str × Json)} {rest : Str}
    (h : parseVal fuel s = some (.obj kvs, rest)) :
    ∃ r, skipWs s = lbrace :: r := by
  cases fuel with
  | zero => simp [parseVal] at h
  | succ fuel =>
    unfold parseVal at h
    cases hsw : skipWs s with
    | nil =>
      rw [hsw] at h
      simp at h
    | cons c r =>
      rw [hsw] at h
      dsimp only at h
      by_cases h1 : (c == lbrace) = true
      · have hc : c = lbrace := by simpa using h1
        subst hc
        exact ⟨r, rfl⟩
      · rw [if_neg h1] at h
        by_cases h2 : (c == '[') = true
        · rw [if_pos h2] at h
          cases hsw2 : skipWs r with
          | nil =>
            rw [hsw2] at h
            simp at h
          | cons d r2 =>
            rw [hsw2] at h
            dsimp only at h
            by_cases h3 : (d == ']') = true
            · rw [if_pos h3] at h
              simp at h
            · rw [if_neg h3] at h
              simp only [Option.map_eq_some'] at h
              obtain ⟨p, _, hp⟩ := h
              simp at hp
        · rw [if_neg h2] at h
          by_cases h3 : (c == '"') = true
          · rw [if_pos h3] at h
            simp only [Option.map_eq_some'] at h
            obtain ⟨p, _, hp⟩ := h
            simp at hp
          · rw [if_neg h3] at h
            by_cases h4 : (c == 't') = true
            · rw [if_pos h4] at h
              split at h <;> simp_all
            · rw [if_neg h4] at h
              by_cases h5 : (c == 'f') = true
              · rw [if_pos h5] at h
                split at h <;> simp_all
              · rw [if_neg h5] at h
                by_cases h6 : (c == 'n') = true
                · rw [if_pos h6] at h
                  split at h <;> simp_all
                · rw [if_neg h6] at h
                  simp only [Option.map_eq_some'] at h
                  obtain ⟨p, _, hp⟩ := h
                  simp at hp

theorem parseJson_obj_head {s : Str} {kvs : List (Str × Json)}
    (h : parseJson s = some (.obj kvs)) :
    ∃ r, skipWs s = lbrace :: r := by
  unfold parseJson at h
  cases hv : parseVal (s.length + 1) s with
  | none =>
    rw [hv] at h
    simp at h
  | some p =>
    rw [hv] at h
    obtain ⟨j, rest⟩ := p
    dsimp only at h
    by_cases he : (skipWs rest).isEmpty = true
    · rw [if_pos he] at h
      cases h
      exact parseVal_obj_head hv
    · rw [if_neg he] at h
      simp at h

theorem skipWs_append_head {pre rest : Str} (h : ∃ c ∈ pre, isJsonWs c = false) :
    ∃ c r, skipWs (pre ++ rest) = c :: r ∧ c ∈ pre ∧ isJsonWs c = false := by
  induction pre with
  | nil => simp at h
  | cons c pre' ih =>
    by_cases hw : isJsonWs c = true
    · obtain ⟨c', hc', hn⟩ := h
      have hc'' : c' ∈ pre' := by
        cases List.mem_cons.mp hc' with
        | inl he => rw [he] at hn; rw [hw] at hn; cases hn
        | inr hm => exact hm
      obtain ⟨c0, r0, heq, hmem, hn0⟩ := ih ⟨c', hc'', hn⟩
      refine ⟨c0, r0, ?_, List.mem_cons_of_mem _ hmem, hn0⟩
      simpa [skipWs, List.dropWhile_cons, hw] using heq
    · have hw' : isJsonWs c = false := by
        cases hb : isJsonWs c
        · rfl
        · exact absurd hb hw
      exact ⟨c, pre' ++ rest, by simp [skipWs, List.dropWhile_cons, hw'], List.mem_cons_self _ _, hw'⟩

theorem decodeResponse_ne_obj {j : Json} {raw : Str}
    (h : ∀ kvs, j ≠ .obj kvs) : decodeResponse j raw = none := by
  cases j with
  | obj kvs => exact absurd rfl (h kvs)
  | null => rfl
  | bool b => rfl
  | num n => rfl
  | str s => rfl
  | arr xs => rfl

theorem strict_none {pre objStr post : Str}
    (hpre2 : ∃ c ∈ pre, isJsonWs c = false)
    (hpre1 : ∀ c ∈ pre, c ≠ lbrace) :
    strictDecode (pre ++ objStr ++ post) = none := by
  unfold strictDecode
  cases hp : parseJson (pre ++ objStr ++ post) with
  | none => rfl
  | some j =>
    rw [Option.some_bind]
    cases j with
    | obj kvs =>
      exfalso
      obtain ⟨r, hr⟩ := parseJson_obj_head hp
      rw [List.append_assoc] at hr
      obtain ⟨c0, r0, heq, hmem, hn0⟩ := @skipWs_append_head pre (objStr ++ post) hpre2
      rw [heq] at hr
      cases hr
      exact hpre1 _ hmem rfl
    | null => rfl
    | bool b => rfl
    | num n => rfl
    | str s2 => rfl
    | arr xs => rfl

/-- Claim C5 (corrected): when prose wraps a schema-valid JSON object and
the leading prose has a non-whitespace character but no opening brace and
the trailing prose has no closing brace, the second strategy extracts
exactly the object, parses it, and the response equals its decoded
fields.  (The counterexample shows the restriction on braces in the prose
is necessary: the greedy pattern spans from the first opening to the last
closing brace of the whole text.) -/
theorem claim_C5 (pre objStr post : Str) (j : Json) (body : AjusteResponse)
    (hparse : parseJson objStr = some j)
    (hdec : decodeResponse j (pre ++ objStr ++ post) = some body)
    (hpre1 : ∀ c ∈ pre, c ≠ lbrace)
    (hpre2 : ∃ c ∈ pre, isJsonWs c = false)
    (hpost : ∀ c ∈ post, c ≠ rbrace)
    (hhead : ∃ m, objStr = lbrace :: m)
    (hlast : ∃ i, objStr = i ++ [rbrace]) :
    normalize (pre ++ objStr ++ post) = body := by
  have hstrict : strictDecode (pre ++ objStr ++ post) = none := strict_none hpre2 hpre1
  have hext : extractBrace (pre ++ objStr ++ post) = some objStr := by
    apply extractBrace_eq ?_ ?_ hhead hlast
    · intro c hc
      simpa using hpre1 c hc
    · intro c hc
      simpa using hpost c hc
  have hemb : embeddedDecode (pre ++ objStr ++ post) = some body := by
    simp only [embeddedDecode, hext, Option.some_bind, hparse, hdec]
  simp only [normalize, hstrict, hemb]

/-- Claim C5, witness: brace-free prose with non-whitespace on both sides
of a schema-valid JSON object. -/
theorem claim_C5_witness :
    normalize ((("Aqui vai: ").toList) ++ objStr0 ++ ((" fim").toList)) =
      { diagnostico := ("ok").toList, ajusteCarga := none,
        recomendacoesAutocuidado := [("a").toList], planoDia := none,
        rawText := some ((("Aqui vai: ").toList) ++ objStr0 ++ ((" fim").toList)),
        error := none } :=
  claim_C5 (("Aqui vai: ").toList) objStr0 ((" fim").toList)
    (Json.obj [(diagK, Json.str (("ok").toList)),
               (recsK, Json.arr [Json.str (("a").toList)])])
    _ rfl rfl (by decide) (by decide) (by decide)
    ⟨objStr0.tail, by decide⟩ ⟨objStr0.dropLast, by decide⟩

/-- Claim C5, counterexample to the claim as stated: prose wrapping one
valid schema-matching JSON object, where the trailing prose contains a
closing brace (an emoticon); the greedy brace pattern overshoots, the
extracted block fails to parse, and the heuristic result does not carry
the object's fields. -/
theorem claim_C5_counterexample :
    smileyReply = ("Result: ").toList ++ objStr0 ++ (" :-\x7d").toList ∧
    ((parseJson objStr0).bind (fun j => decodeResponse j smileyReply)).isSome = true ∧
    (∃ c ∈ ("Result: ").toList, isJsonWs c = false) ∧
    (∀ c ∈ ("Result: ").toList, c ≠ lbrace) ∧
    (normalize smileyReply).diagnostico ≠ ("ok").toList ∧
    (normalize smileyReply).recomendacoesAutocuidado = [pausaLeve] := by
  decide

theorem lc_punct_fix {c : Char} (h : isStopPunct c = true) : lc c = c := by
  simp only [isStopPunct, Bool.or_eq_true, beq_iff_eq] at h
  rcases h with (h | h) | h <;> simp [lc, h]

theorem lc_ws_fix {c : Char} (h : isPyWs c = true) : lc c = c := by
  simp only [isPyWs, Bool.or_eq_true, beq_iff_eq] at h
  rcases h with ((((h | h) | h) | h) | h) | h <;> subst h <;> decide

theorem word_not_stop {c : Char} (h : isWordChar c = true) : isStopPunct c = false := by
  cases hs : isStopPunct c
  · rfl
  · exfalso
    simp only [isStopPunct, Bool.or_eq_true, beq_iff_eq] at hs
    simp only [isWordChar, Bool.or_eq_true, Bool.and_eq_true, decide_eq_true_eq,
      beq_iff_eq, bne_iff_ne, ne_eq] at h
    omega

theorem stem_char_props {c : Char}
    (hxp : isStopPunct (lc c) = false) (hxw : isPyWs (lc c) = false) :
    isStopPunct c = false ∧ isPyWs c = false := by
  constructor
  · cases hs : isStopPunct c
    · rfl
    · rw [lc_punct_fix hs, hs] at hxp
      exact hxp
  · cases hs : isPyWs c
    · rfl
    · rw [lc_ws_fix hs, hs] at hxw
      exact hxw

/-- The four load-change verb stems. -/
theorem stem_chars_ok {stem : Str}
    (h : stem = ("reduz").toList ∨ stem = ("diminu").toList ∨
         stem = ("aument").toList ∨ stem = ("eleve").toList) :
    (∀ x ∈ stem, isStopPunct x = false ∧ isPyWs x = false) ∧ stem ≠ [] := by
  rcases h with h | h | h | h <;> subst h <;> exact ⟨by decide, by decide⟩

theorem all_takeWhile (q : Char → Bool) (l : Str) : (l.takeWhile q).all q = true := by
  induction l with
  | nil => rfl
  | cons c r ih =>
    cases hq : q c
    · simp [List.takeWhile_cons, hq]
    · simp [List.takeWhile_cons, hq, ih]

theorem all_take {q : Char → Bool} {l : Str} (n : Nat) (h : l.all q = true) :
    (l.take n).all q = true := by
  rw [List.all_eq_true] at h ⊢
  intro x hx
  exact h x (List.take_subset n l hx)

theorem exists_dropWhile_suffix (q : Char → Bool) (l : Str) :
    ∃ u, l = u ++ l.dropWhile q := by
  induction l with
  | nil => exact ⟨[], rfl⟩
  | cons c r ih =>
    cases hq : q c
    · exact ⟨[], by simp [List.dropWhile_cons, hq]⟩
    · obtain ⟨u, hu⟩ := ih
      refine ⟨c :: u, ?_⟩
      simp only [List.dropWhile_cons, hq, if_true, List.cons_append]
      exact congrArg (fun x => c :: x) hu

theorem dropWhile_append_stable {q : Char → Bool} {ys : Str} (hys : ys.dropWhile q = ys)
    (xs : Str) : ∃ zs, (xs ++ ys).dropWhile q = zs ++ ys := by
  induction xs with
  | nil => exact ⟨[], by simpa using hys⟩
  | cons x xs' ih =>
    cases hq : q x
    · exact ⟨x :: xs', by simp [List.dropWhile_cons, hq]⟩
    · obtain ⟨zs, hzs⟩ := ih
      refine ⟨zs, ?_⟩
      simp only [List.cons_append, List.dropWhile_cons, hq, if_true]
      exact hzs

theorem drop_takeWhile_length (q : Char → Bool) (r : Str) :
    r.drop (r.takeWhile q).length = r.dropWhile q := by
  induction r with
  | nil => rfl
  | cons c r' ih =>
    cases hq : q c
    · simp [List.takeWhile_cons, List.dropWhile_cons, hq]
    · simp [List.takeWhile_cons, List.dropWhile_cons, hq, ih]

theorem tryStem_sound {stem : Str} {needW : Bool} {l m : Str}
    (h : tryStem stem needW l = some m) :
    ∃ p w e rest, m = p ++ w ++ e ∧ l = m ++ rest ∧ p.map lc = stem ∧
      w.all isWordChar = true ∧ e.all (fun c => !isStopPunct c) = true ∧
      e.length ≤ 80 := by
  unfold tryStem at h
  by_cases hc : ((l.take stem.length).map lc == stem) = true
  · rw [if_pos hc] at h
    have hmap : (l.take stem.length).map lc = stem := by simpa using hc
    cases needW with
    | true =>
      dsimp only at h
      set r := l.drop stem.length with hrdef
      set w := r.takeWhile isWordChar with hwdef
      set r2 := r.drop w.length with hr2def
      set e := (r2.takeWhile (fun c => !isStopPunct c)).take 80 with hedef
      by_cases hw0 : w.isEmpty = true
      · rw [if_pos hw0] at h
        cases h
      · rw [if_neg hw0] at h
        injection h with hmeq
        refine ⟨l.take stem.length, w, e,
          (r2.takeWhile (fun c => !isStopPunct c)).drop 80 ++
            r2.dropWhile (fun c => !isStopPunct c), hmeq.symm, ?_, hmap, ?_, ?_, ?_⟩
        · have h1 : w ++ r2 = r := by
            rw [hwdef, hr2def, hwdef, drop_takeWhile_length]
            exact List.takeWhile_append_dropWhile _ _
          have h2 : e ++ ((r2.takeWhile (fun c => !isStopPunct c)).drop 80 ++
              r2.dropWhile (fun c => !isStopPunct c)) = r2 := by
            rw [hedef, ← List.append_assoc, List.take_append_drop]
            exact List.takeWhile_append_dropWhile _ _
          rw [← hmeq]
          calc l = l.take stem.length ++ r := by rw [hrdef, List.take_append_drop]
          _ = l.take stem.length ++ (w ++ r2) := by rw [h1]
          _ = l.take stem.length ++ (w ++ (e ++ ((r2.takeWhile (fun c => !isStopPunct c)).drop 80 ++
                r2.dropWhile (fun c => !isStopPunct c)))) := by rw [h2]
          _ = l.take stem.length ++ w ++ e ++ ((r2.takeWhile (fun c => !isStopPunct c)).drop 80 ++
                r2.dropWhile (fun c => !isStopPunct c)) := by simp [List.append_assoc]
        · rw [hwdef]
          exact all_takeWhile _ _
        · rw [hedef]
          exact all_take _ (all_takeWhile _ _)
        · rw [hedef]
          simp [List.length_take]
    | false =>
      dsimp only at h
      set r := l.drop stem.length with hrdef
      set e := (r.takeWhile (fun c => !isStopPunct c)).take 80 with hedef
      injection h with hmeq
      refine ⟨l.take stem.length, [], e,
        (r.takeWhile (fun c => !isStopPunct c)).drop 80 ++
          r.dropWhile (fun c => !isStopPunct c), by rw [← hmeq]; simp, ?_, hmap, rfl, ?_, ?_⟩
      · have h2 : e ++ ((r.takeWhile (fun c => !isStopPunct c)).drop 80 ++
            r.dropWhile (fun c => !isStopPunct c)) = r := by
          rw [hedef, ← List.append_assoc, List.take_append_drop]
          exact List.takeWhile_append_dropWhile _ _
        rw [← hmeq]
        calc l = l.take stem.length ++ r := by rw [hrdef, List.take_append_drop]
        _ = l.take stem.length ++ (e ++ ((r.takeWhile (fun c => !isStopPunct c)).drop 80 ++
              r.dropWhile (fun c => !isStopPunct c))) := by rw [h2]
        _ = l.take stem.length ++ e ++ ((r.takeWhile (fun c => !isStopPunct c)).drop 80 ++
              r.dropWhile (fun c => !isStopPunct c)) := by simp [List.append_assoc]
      · rw [hedef]
        exact all_take _ (all_takeWhile _ _)
      · rw [hedef]
        simp [List.length_take]
  · rw [if_neg hc] at h
    cases h

theorem loadHere_sound {l m : Str} (h : loadHere l = some m) :
    ∃ stem p w e rest,
      (stem = ("reduz").toList ∨ stem = ("diminu").toList ∨
       stem = ("aument").toList ∨ stem = ("eleve").toList) ∧
      m = p ++ w ++ e ∧ l = m ++ rest ∧ p.map lc = stem ∧
      w.all isWordChar = true ∧ e.all (fun c => !isStopPunct c) = true ∧
      e.length ≤ 80 := by
  unfold loadHere at h
  cases h1 : tryStem (("reduz").toList) true l with
  | some m1 =>
    rw [h1] at h
    dsimp only at h
    injection h with hme
    subst hme
    obtain ⟨p, w, e, rest, h2, h3, h4, h5, h6, h7⟩ := tryStem_sound h1
    exact ⟨_, p, w, e, rest, Or.inl rfl, h2, h3, h4, h5, h6, h7⟩
  | none =>
    rw [h1] at h
    dsimp only at h
    cases h2 : tryStem (("diminu").toList) true l with
    | some m2 =>
      rw [h2] at h
      dsimp only at h
      injection h with hme
      subst hme
      obtain ⟨p, w, e, rest, g2, g3, g4, g5, g6, g7⟩ := tryStem_sound h2
      exact ⟨_, p, w, e, rest, Or.inr (Or.inl rfl), g2, g3, g4, g5, g6, g7⟩
    | none =>
      rw [h2] at h
      dsimp only at h
      cases h3 : tryStem (("aument").toList) true l with
      | some m3 =>
        rw [h3] at h
        dsimp only at h
        injection h with hme
        subst hme
        obtain ⟨p, w, e, rest, g2, g3, g4, g5, g6, g7⟩ := tryStem_sound h3
        exact ⟨_, p, w, e, rest, Or.inr (Or.inr (Or.inl rfl)), g2, g3, g4, g5, g6, g7⟩
      | none =>
        rw [h3] at h
        dsimp only at h
        obtain ⟨p, w, e, rest, g2, g3, g4, g5, g6, g7⟩ := tryStem_sound h
        exact ⟨_, p, w, e, rest, Or.inr (Or.inr (Or.inr rfl)), g2, g3, g4, g5, g6, g7⟩

theorem findLoad_sound {t m : Str} (h : findLoad t = some m) :
    ∃ u rest, t = u ++ m ++ rest ∧
      ∃ stem p w e,
        (stem = ("reduz").toList ∨ stem = ("diminu").toList ∨
         stem = ("aument").toList ∨ stem = ("eleve").toList) ∧
        m = p ++ w ++ e ∧ p.map lc = stem ∧
        w.all isWordChar = true ∧ e.all (fun c => !isStopPunct c) = true ∧
        e.length ≤ 80 := by
  induction t with
  | nil => simp [findLoad] at h
  | cons c r ih =>
    unfold findLoad at h
    cases hlh : loadHere (c :: r) with
    | some m1 =>
      rw [hlh] at h
      dsimp only at h
      injection h with hme
      subst hme
      obtain ⟨stem, p, w, e, rest, hst, hm, hl, hmap, hw, he, hlen⟩ := loadHere_sound hlh
      exact ⟨[], rest, by simpa using hl, stem, p, w, e, hst, hm, hmap, hw, he, hlen⟩
    | none =>
      rw [hlh] at h
      dsimp only at h
      obtain ⟨u, rest, ht, hprops⟩ := ih h
      exact ⟨c :: u, rest, by simp [ht], hprops⟩

theorem trimL_eq {p rest : Str} (hp : p ≠ []) (hpw : ∀ c ∈ p, isPyWs c = false) :
    trimL (p ++ rest) = p ++ rest := by
  cases p with
  | nil => exact absurd rfl hp
  | cons c p' =>
    unfold trimL
    rw [List.cons_append]
    exact dropWhile_cons_neg (hpw c (List.mem_cons_self _ _))

theorem trimR_props {p rest : Str} (_hp : p ≠ []) (hpw : ∀ c ∈ p, isPyWs c = false) :
    (∃ zs, trimR (p ++ rest) = p ++ zs) ∧
    (∃ tail, p ++ rest = trimR (p ++ rest) ++ tail) := by
  constructor
  · have hrev : (p ++ rest).reverse = rest.reverse ++ p.reverse := List.reverse_append _ _
    have hstable : p.reverse.dropWhile isPyWs = p.reverse := by
      cases hpr : p.reverse with
      | nil => rfl
      | cons c pr' =>
        have hc : c ∈ p := by
          rw [← List.mem_reverse, hpr]
          exact List.mem_cons_self _ _
        exact dropWhile_cons_neg (hpw c hc)
    obtain ⟨zs, hzs⟩ := dropWhile_append_stable hstable rest.reverse
    refine ⟨zs.reverse, ?_⟩
    unfold trimR
    rw [hrev, hzs, List.reverse_append, List.reverse_reverse]
  · obtain ⟨u, hu⟩ := exists_dropWhile_suffix isPyWs (p ++ rest).reverse
    refine ⟨u.reverse, ?_⟩
    unfold trimR
    conv_lhs => rw [← List.reverse_reverse (p ++ rest), hu]
    rw [List.reverse_append]

/-- Claim C10: whenever the heuristic fallback populates the
workload-adjustment field, its value is the whitespace-stripped form of a
contiguous substring of the input that decomposes as a load-change verb
stem (case-insensitively one of reduz/diminu/aument/eleve) followed by its
word-character continuation and at most 80 further characters, none of
which (anywhere in the match) is `.`, `!` or `?`; the stripped value still
begins with the stem and is itself a contiguous substring of the input. -/
theorem claim_C10 (t s : Str) (h : (parse_text_fallback t).ajusteCarga = some s) :
    ∃ m p w e stem,
      (stem = ("reduz").toList ∨ stem = ("diminu").toList ∨
       stem = ("aument").toList ∨ stem = ("eleve").toList) ∧
      m = p ++ w ++ e ∧ isSubstr m t ∧ s = pyStrip m ∧
      p.map lc = stem ∧ w.all isWordChar = true ∧ e.length ≤ 80 ∧
      m.all (fun c => !isStopPunct c) = true ∧
      s.take p.length = p ∧ isSubstr s t := by
  have hfl : ∃ m, findLoad t = some m ∧ s = pyStrip m := by
    unfold parse_text_fallback at h
    dsimp only at h
    rw [Option.map_eq_some'] at h
    obtain ⟨m, hm, hs⟩ := h
    exact ⟨m, hm, hs.symm⟩
  obtain ⟨m, hm, hs⟩ := hfl
  obtain ⟨u, rest, ht, stem, p, w, e, hst, hmpwe, hmap, hwall, heall, helen⟩ :=
    findLoad_sound hm
  obtain ⟨hstemok, hstemne⟩ := stem_chars_ok hst
  have hpchars : ∀ c ∈ p, isStopPunct c = false ∧ isPyWs c = false := by
    intro c hc
    have hmem : lc c ∈ stem := by
      rw [← hmap]
      exact List.mem_map_of_mem lc hc
    obtain ⟨h1, h2⟩ := hstemok (lc c) hmem
    exact stem_char_props h1 h2
  have hpne : p ≠ [] := by
    intro hp0
    rw [hp0] at hmap
    simp at hmap
    exact hstemne hmap
  have hpwf : ∀ c ∈ p, isPyWs c = false := fun c hc => (hpchars c hc).2
  have hmall : m.all (fun c => !isStopPunct c) = true := by
    rw [hmpwe]
    simp only [List.all_append, Bool.and_eq_true]
    refine ⟨⟨?_, ?_⟩, heall⟩
    · rw [List.all_eq_true]
      intro x hx
      simp [(hpchars x hx).1]
    · rw [List.all_eq_true]
      intro x hx
      rw [List.all_eq_true] at hwall
      simp [word_not_stop (hwall x hx)]
  have hrest0 : m = p ++ (w ++ e) := by
    rw [hmpwe, List.append_assoc]
  have htl : trimL m = m := by
    rw [hrest0]
    exact trimL_eq hpne hpwf
  have hps : pyStrip m = trimR m := by
    rw [pyStrip, htl]
  have hTP := @trimR_props p (w ++ e) hpne hpwf
  rw [← hrest0] at hTP
  obtain ⟨⟨zs, hzs⟩, ⟨tail, htail⟩⟩ := hTP
  have hsval : s = p ++ zs := by
    rw [hs, hps, hzs]
  have hmst : m = s ++ tail := by
    rw [hs, hps]
    exact htail
  refine ⟨m, p, w, e, stem, hst, hmpwe, ⟨u, rest, ht⟩, hs, hmap, hwall, helen, hmall, ?_, ?_⟩
  · rw [hsval]
    exact List.take_left p zs
  · refine ⟨u, tail ++ rest, ?_⟩
    rw [ht, hmst]
    simp [List.append_assoc]

/-- Claim C10, witness at a reply containing a load-change clause. -/
theorem claim_C10_witness :
    (parse_text_fallback (("você deve reduzir a carga hoje. mais").toList)).ajusteCarga =
      some (("reduzir a carga hoje").toList) ∧
    (∃ m p w e stem,
      (stem = ("reduz").toList ∨ stem = ("diminu").toList ∨
       stem = ("aument").toList ∨ stem = ("eleve").toList) ∧
      m = p ++ w ++ e ∧
      isSubstr m (("você deve reduzir a carga hoje. mais").toList) ∧
      ("reduzir a carga hoje").toList = pyStrip m ∧
      p.map lc = stem ∧ w.all isWordChar = true ∧ e.length ≤ 80 ∧
      m.all (fun c => !isStopPunct c) = true ∧
      (("reduzir a carga hoje").toList).take p.length = p ∧
      isSubstr (("reduzir a carga hoje").toList)
        (("você deve reduzir a carga hoje. mais").toList)) :=
  ⟨by decide, claim_C10 _ _ (by decide)⟩

end SoulBalance
